import Mathlib

/-!
Verification of the Sona transaction-construction-and-signing pipeline.

This file gives a shallow embedding, in Lean 4, of the core functions of the
Sona repository (Swift sources `Sona/Session.swift`, the HPKE manager and the
send-money orchestration), and proves or refutes the frozen specification
claims about them.

Modelling conventions:
* Bytes are `Nat` values in `[0, 255]`; byte strings are `List Nat`.
  Machine arithmetic on bytes from the source (`& 0x7F`, `>> 7`, `& 0xFF`,
  `>> 8`) is written with `% / &&&` on `Nat` at the same widths.
* Swift `Data` is `List Nat`; Swift `String` values (the Base58 text,
  canonical-JSON output, JSON keys) are lists of Unicode scalar values.
* External collaborators (CryptoKit SHA-256 and ECDSA, SwiftHPKE `open`,
  Foundation base64 and JSON parsing) are parameters of the embedded
  functions: the claims under verification are about the control flow and
  byte-layout logic of the repository, not about the crypto primitives.
* Swift `throw` is an `.error`/`none` result; a Swift runtime trap
  (precondition failure) is modelled as a distinguished outcome where a
  claim depends on it.
-/

/-! ### ShortVec codec (Session.swift, `encodeShortVec`)

The source loop emits `rem & 0x7F`, shifts `rem >>= 7`, and sets the
continuation bit `0x80` on every byte except the last.  For a byte value
`e = rem & 0x7F < 128` we have `e | 0x80 = e + 128`, and `rem & 0x7F`,
`rem >> 7` are `rem % 128`, `rem / 128`. -/

def encodeShortVec (n : Nat) : List Nat :=
  if n / 128 = 0 then [n % 128]
  else (n % 128 + 128) :: encodeShortVec (n / 128)
decreasing_by exact Nat.div_lt_self (Nat.pos_of_ne_zero (by omega)) (by norm_num)

/-- Specification-side predicate from the claim: a wellformed shortvec byte
sequence is nonempty, every byte except the last has the continuation bit
(value at least 128, below 256), and the last byte has it clear. -/
def shortVecChainOk : List Nat → Bool
  | [] => false
  | [b] => decide (b < 128)
  | b :: rest => decide (128 ≤ b) && decide (b < 256) && shortVecChainOk rest

/-- Specification-side value of a shortvec byte sequence: 7-bit groups,
least-significant group first. -/
def shortVecVal : List Nat → Nat
  | [] => 0
  | b :: rest => b % 128 + 128 * shortVecVal rest

/-! ### Base58 codec (Session.swift, `Base58`)

The alphabet is `123456789ABCDEFGHJKLMNPQRSTUVWXYZabcdefghijkmnopqrstuvwxyz`,
given here by Unicode scalar values.  Digits are represented by their values
`0..57`; the source stores them as characters and looks their values up in
`alphabetMap`, a bijection, so the two views are interchangeable and the
final encode step maps digit values to alphabet scalars. -/

def base58Alphabet : List Nat :=
  [49, 50, 51, 52, 53, 54, 55, 56, 57,
   65, 66, 67, 68, 69, 70, 71, 72, 74, 75, 76, 77, 78,
   80, 81, 82, 83, 84, 85, 86, 87, 88, 89, 90,
   97, 98, 99, 100, 101, 102, 103, 104, 105, 106, 107,
   109, 110, 111, 112, 113, 114, 115, 116, 117, 118, 119, 120, 121, 122]

/-- Index of a scalar in the Base58 alphabet (the `alphabetMap` lookup);
`none` models the thrown `DecodeError` for a character outside the alphabet. -/
def base58Index : List Nat → Nat → Option Nat
  | [], _ => none
  | a :: rest, ch => if a = ch then some 0 else (base58Index rest ch).map (· + 1)

namespace Base58

/-- Inner loop of `Base58.encode` for one input byte: walks the little-endian
digit array from index 0 upward with `val = digit * 256 + carry`,
`digit := val % 58`, `carry := val / 58`.  Returns the updated digits and the
final carry. -/
def encodeStep : List Nat → Nat → List Nat × Nat
  | [], carry => ([], carry)
  | d :: rest, carry =>
      let val := d * 256 + carry
      let r := encodeStep rest (val / 58)
      (val % 58 :: r.1, r.2)

/-- Trailing `while carry > 0` of `Base58.encode`: appends base-58 digits of
the remaining carry, least significant first.  Written with a structural
fuel argument equal to the carry itself so that the definition reduces in the
kernel; `carry / 58 < carry` for positive carry, so the fuel never runs out. -/
def pushCarry (fuel carry : Nat) : List Nat :=
  match fuel with
  | 0 => []
  | f + 1 => if carry = 0 then [] else carry % 58 :: pushCarry f (carry / 58)

/-- Outer loop of `Base58.encode` over the input bytes (most significant
first), threading the little-endian digit array. -/
def encodeLoop : List Nat → List Nat → List Nat
  | [], digits => digits
  | b :: rest, digits =>
      let s := encodeStep digits b
      encodeLoop rest (s.1 ++ pushCarry s.2 s.2)

/-- Model of `Base58.encode`: counts leading zero bytes, seeds the digit
array with that many zero digits (the source appends that many `'1'`
characters, whose digit value is 0, before the conversion loop), converts,
and maps digit values to alphabet scalars after reversing. -/
def encode (data : List Nat) : List Nat :=
  let zeros := (data.takeWhile (fun b => b = 0)).length
  let num := data.drop zeros
  let digits := encodeLoop num (List.replicate zeros 0)
  digits.reverse.map (fun d => base58Alphabet.getD d 0)

/-- Inner loop of `Base58.decode` for one input character value: walks the
big-endian byte array from the least-significant end with
`x = byte * 58 + carry`, `byte := x % 256`, `carry := x / 256`. -/
def decodeStep : List Nat → Nat → List Nat × Nat
  | [], carry => ([], carry)
  | d :: rest, carry =>
      let r := decodeStep rest carry
      let x := d * 58 + r.2
      (x % 256 :: r.1, x / 256)

/-- Overflow bytes inserted at the front by the `while carry > 0` loop of
`Base58.decode`: the big-endian bytes of the carry.  Fuel as in `pushCarry`. -/
def carryBytes (fuel carry : Nat) : List Nat :=
  match fuel with
  | 0 => []
  | f + 1 => if carry = 0 then [] else carryBytes f (carry / 256) ++ [carry % 256]

/-- Outer loop of `Base58.decode` over the input characters. -/
def decodeLoop : List Nat → List Nat → Option (List Nat)
  | [], b256 => some b256
  | ch :: rest, b256 =>
      match base58Index base58Alphabet ch with
      | none => none
      | some val =>
          let s := decodeStep b256 val
          decodeLoop rest (carryBytes s.2 s.2 ++ s.1)

/-- Model of `Base58.decode`: count leading `'1'` characters (scalar 49),
convert all characters to a big-endian byte array, drop the leading zero
bytes of that array and prepend one zero byte per counted `'1'`. -/
def decode (s : List Nat) : Option (List Nat) :=
  let zeros := (s.takeWhile (fun ch => ch = 49)).length
  (decodeLoop s []).map
    (fun b256 => List.replicate zeros 0 ++ b256.dropWhile (fun b => b = 0))

end Base58

/-! ### Legacy transaction serialization (Session.swift, `SolanaLegacyTransaction`) -/

structure SolanaLegacyInstruction where
  programId : List Nat
  accounts : List Nat
  data : List Nat

structure SolanaLegacyTransaction where
  accountKeys : List (List Nat)
  recentBlockhash : List Nat
  instructions : List SolanaLegacyInstruction
  numRequiredSignatures : Nat
  numReadonlySigned : Nat
  numReadonlyUnsigned : Nat

/-- Per-instruction serialization inside `serializeUnsigned`.  The source
looks up `accountKeys.firstIndex(of: ix.programId)`; when the lookup fails it
logs and executes `continue`, so the instruction contributes no bytes at all
(the `none` branch).  The successful branch emits the one-byte program index
(`UInt8(progIndex)`; indices are below 256 at every call site), the shortvec
account-index count, the indices, the shortvec data length and the data. -/
def SolanaLegacyTransaction.serializeInstruction
    (accountKeys : List (List Nat)) (ix : SolanaLegacyInstruction) : List Nat :=
  match accountKeys.findIdx? (fun k => k = ix.programId) with
  | none => []
  | some progIndex =>
      progIndex :: encodeShortVec ix.accounts.length ++ ix.accounts
        ++ encodeShortVec ix.data.length ++ ix.data

/-- Model of `SolanaLegacyTransaction.serializeUnsigned`: shortvec signature
count, 64-zero-byte placeholders, the 3-byte header, shortvec account count,
the account keys, the blockhash, the shortvec instruction count and then the
per-instruction bytes. -/
def SolanaLegacyTransaction.serializeUnsigned (tx : SolanaLegacyTransaction) : List Nat :=
  encodeShortVec tx.numRequiredSignatures
    ++ List.flatten (List.replicate tx.numRequiredSignatures (List.replicate 64 0))
    ++ [tx.numRequiredSignatures, tx.numReadonlySigned, tx.numReadonlyUnsigned]
    ++ encodeShortVec tx.accountKeys.length
    ++ List.flatten tx.accountKeys
    ++ tx.recentBlockhash
    ++ encodeShortVec tx.instructions.length
    ++ List.flatten (tx.instructions.map (SolanaLegacyTransaction.serializeInstruction tx.accountKeys))

/-! ### Associated-token-address derivation (Session.swift, `TokenProgramBuilder`)

CryptoKit SHA-256 is an external primitive: the derivation is embedded as a
function of an arbitrary digest function `h : List Nat → List Nat`, applied
to the concatenation of the five `digest.update` inputs of the source. -/

def TokenProgramBuilder.programId : List Nat :=
  (Base58.decode (("TokenkegQfeZyiNwAJbNbGKPFXCWuBvf9Ss623VQ5DA").data.map Char.toNat)).getD []

def TokenProgramBuilder.associatedTokenProgram : List Nat :=
  (Base58.decode (("ATokenGPvbdGVxr1b2hvZbsiqW5xWH25efTNsLJA8knL").data.map Char.toNat)).getD []

def SystemProgramBuilder.programId : List Nat :=
  (Base58.decode (("11111111111111111111111111111111").data.map Char.toNat)).getD []

/-- Model of `isOffCurveEd25519`: exactly 32 bytes and bit 7 of the last byte
clear. -/
def TokenProgramBuilder.isOffCurveEd25519 (pubkey : List Nat) : Bool :=
  decide (pubkey.length = 32) && decide (pubkey.getD 31 0 &&& 128 = 0)

/-- Concatenation of the five `digest.update` calls of the bump-search loop,
in source order: ATA program, owner wallet, token program, mint, bump byte. -/
def TokenProgramBuilder.ataSeedBytes (walletPubkey mintPubkey : List Nat) (bump : Nat) : List Nat :=
  TokenProgramBuilder.associatedTokenProgram ++ walletPubkey
    ++ TokenProgramBuilder.programId ++ mintPubkey ++ [bump]

/-- Bump-search loop of `deriveAssociatedTokenAddress` (`while bump > 0`,
descending).  The argument is the current bump value; when it reaches 0 the
loop exits and the source returns the in-band pair `(Data(), 0)`. -/
def TokenProgramBuilder.deriveATAGo (h : List Nat → List Nat)
    (walletPubkey mintPubkey : List Nat) : Nat → List Nat × Nat
  | 0 => ([], 0)
  | b + 1 =>
      let address := h (TokenProgramBuilder.ataSeedBytes walletPubkey mintPubkey (b + 1))
      if TokenProgramBuilder.isOffCurveEd25519 address then (address, b + 1)
      else TokenProgramBuilder.deriveATAGo h walletPubkey mintPubkey b

/-- Model of `deriveAssociatedTokenAddress`, starting the search at bump 255. -/
def TokenProgramBuilder.deriveAssociatedTokenAddress (h : List Nat → List Nat)
    (walletPubkey mintPubkey : List Nat) : List Nat × Nat :=
  TokenProgramBuilder.deriveATAGo h walletPubkey mintPubkey 255

/-! ### Raw P-256 private-key extraction (Session.swift,
`SessionManager.extractRawP256PrivateKey`)

The byte-level scan of the function (lines following the candidate-data
normalization).  The preceding `wallet-auth:`/base64 text normalization uses
Foundation string APIs and maps the HPKE plaintext to the candidate byte
string scanned here; on non-textual DER plaintexts it is the identity. -/

/-- Candidate scan: walks the bytes while `i + 1 < count`; every `0x30` byte
increments the depth counter; every `0x04 0x20` pair is recorded with the
current depth. -/
def SessionManager.scanCandidates : List Nat → Nat → Nat → List (Nat × Nat)
  | b0 :: b1 :: rest, i, depth =>
      if b0 = 48 then SessionManager.scanCandidates (b1 :: rest) (i + 1) (depth + 1)
      else if b0 = 4 ∧ b1 = 32 then
        (i, depth) :: SessionManager.scanCandidates (b1 :: rest) (i + 1) depth
      else SessionManager.scanCandidates (b1 :: rest) (i + 1) depth
  | _, _, _ => []

/-- Swift `max(by: { $0.depth < $1.depth })`: the first element of maximal
depth (the running maximum is replaced only on a strictly greater depth). -/
def SessionManager.pickBest (cs : List (Nat × Nat)) : Option (Nat × Nat) :=
  match cs with
  | [] => none
  | c :: rest => some (rest.foldl (fun best x => if best.2 < x.2 then x else best) c)

/-- Model of the DER scan of `extractRawP256PrivateKey`: pick the deepest
`0x04 0x20` candidate; if the 32 bytes after its marker fit in the data,
return them, otherwise return `none`. -/
def SessionManager.extractRawP256PrivateKey (bytes : List Nat) : Option (List Nat) :=
  match SessionManager.pickBest (SessionManager.scanCandidates bytes 0 0) with
  | none => none
  | some c =>
      if c.1 + 2 + 32 ≤ bytes.length then some ((bytes.drop (c.1 + 2)).take 32)
      else none

/-- Specification-side marker positions, from the claim: the indices at which
the byte pair `0x04 0x20` occurs with at least one following byte position in
range (the source loop runs while `i + 1 < count`). -/
def markerPositions : List Nat → List Nat
  | b0 :: b1 :: rest =>
      if b0 = 4 ∧ b1 = 32 then 0 :: (markerPositions (b1 :: rest)).map (· + 1)
      else (markerPositions (b1 :: rest)).map (· + 1)
  | _ => []

/-- Specification-side nesting depth of a position: the number of `0x30`
bytes strictly before it. -/
def markerDepth (bytes : List Nat) (i : Nat) : Nat :=
  ((bytes.take i).filter (fun b => b = 48)).length

/-! ### JSON values and the canonical JSON encoder (Session.swift,
`CanonicalJSON`)

Parsed JSON values (the result of `JSONSerialization.jsonObject`) are
modelled as the sum type `J`; object key order is the (arbitrary) order of
the association list.  JSON numbers are modelled as integers: the claims
under verification only involve integer numbers, and the source's
`NumberFormatter` (decimal style, POSIX locale, no grouping) prints an
integer `NSNumber` as its plain decimal digits.  Strings are lists of
Unicode scalar values and the encoder output is the scalar sequence of the
canonical string (UTF-8 encoding of scalar sequences is injective, so
byte-identity of `canonicalData` is scalar-identity of `canonicalString`). -/

mutual
inductive J where
  | null : J
  | bool (b : Bool) : J
  | num (n : Int) : J
  | str (s : List Nat) : J
  | arr (xs : JList) : J
  | obj (kvs : KVList) : J
inductive JList where
  | nil : JList
  | cons (hd : J) (tl : JList) : JList
inductive KVList where
  | nil : KVList
  | cons (k : List Nat) (v : J) (tl : KVList) : KVList
end

/-- Plain-list view of a `JList`. -/
def JList.toList : JList → List J
  | .nil => []
  | .cons x xs => x :: xs.toList

/-- Plain-list view of a `KVList`. -/
def KVList.toList : KVList → List (List Nat × J)
  | .nil => []
  | .cons k v xs => (k, v) :: xs.toList

/-- Swift dictionary lookup `dict[key]` on the association-list view: the
first value stored under the key. -/
def KVList.lookup : KVList → List Nat → Option J
  | .nil, _ => none
  | .cons k v xs, key => if k = key then some v else xs.lookup key

namespace CanonicalJSON

/-- Escaping of one Unicode scalar of a JSON string, following the source's
switch: quote, backslash, backspace, form feed, newline, carriage return,
tab, then a four-uppercase-hex-digit u-escape for the remaining control
scalars, everything else verbatim. -/
def escapeScalar (c : Nat) : List Nat :=
  if c = 34 then [92, 34]
  else if c = 92 then [92, 92]
  else if c = 8 then [92, 98]
  else if c = 12 then [92, 102]
  else if c = 10 then [92, 110]
  else if c = 13 then [92, 114]
  else if c = 9 then [92, 116]
  else if c ≤ 31 then
    let hexDigit := fun d => if d < 10 then 48 + d else 55 + d
    [92, 117, hexDigit (c / 4096 % 16), hexDigit (c / 256 % 16),
     hexDigit (c / 16 % 16), hexDigit (c % 16)]
  else [c]

/-- Model of `jsonEscapeString`: a double quote, the escaped scalars, a
double quote. -/
def escapeString (s : List Nat) : List Nat :=
  34 :: (s.map escapeScalar).flatten ++ [34]

/-- Decimal rendering of an integer JSON number (scalar values of its
digits, with a leading minus sign for negative values). -/
def numberString (n : Int) : List Nat :=
  if n < 0 then 45 :: (Nat.toDigits 10 n.natAbs).map Char.toNat
  else (Nat.toDigits 10 n.natAbs).map Char.toNat

/-- Comma-joining of already-rendered parts (`joined(separator: ",")`). -/
def joinComma : List (List Nat) → List Nat
  | [] => []
  | [p] => p
  | p :: rest => p ++ 44 :: joinComma rest

/-- Key order used by the canonical encoder on object entries whose values
are already rendered: lexicographic order on the key scalar sequences.  The
source sorts the dictionary keys with Swift `sorted()`; on the scalar-value
view this is the lexicographic order by Unicode scalar. -/
def keyLeP (p q : List Nat × List Nat) : Prop := p.1 ≤ q.1

instance : DecidableRel keyLeP := fun p q => inferInstanceAs (Decidable (p.1 ≤ q.1))

instance : IsTotal (List Nat × List Nat) keyLeP := ⟨fun a b => le_total a.1 b.1⟩

instance : IsTrans (List Nat × List Nat) keyLeP := ⟨fun _ _ _ h1 h2 => le_trans h1 h2⟩

/-- Strict key order, used to state uniqueness of the sorted form. -/
def keyLtP (p q : List Nat × List Nat) : Prop := p.1 < q.1

instance : IsAntisymm (List Nat × List Nat) keyLtP :=
  ⟨fun _ _ h1 h2 => absurd (lt_trans h1 h2) (lt_irrefl _)⟩

mutual
/-- Model of `CanonicalJSON.canonicalString`: sorted-key objects rendered as
escaped key, colon, canonical value, comma-joined in braces; arrays
comma-joined in brackets; strings escaped; numbers in plain decimal;
booleans and null as their keywords.  For an object the source sorts the
(unique) dictionary keys and then renders each value; rendering the entries
first and then sorting by key is the same operation on the association-list
view. -/
def canonicalString : J → List Nat
  | .null => [110, 117, 108, 108]
  | .bool true => [116, 114, 117, 101]
  | .bool false => [102, 97, 108, 115, 101]
  | .num n => numberString n
  | .str s => escapeString s
  | .arr xs => 91 :: joinComma (canonicalList xs) ++ [93]
  | .obj kvs =>
      123 :: joinComma (((canonicalKVs kvs).insertionSort keyLeP).map
        (fun q => escapeString q.1 ++ 58 :: q.2)) ++ [125]
/-- Canonical rendering of every element of an array. -/
def canonicalList : JList → List (List Nat)
  | .nil => []
  | .cons x xs => canonicalString x :: canonicalList xs
/-- Canonical rendering of every value of an object, keeping the keys. -/
def canonicalKVs : KVList → List (List Nat × List Nat)
  | .nil => []
  | .cons k v xs => (k, canonicalString v) :: canonicalKVs xs
end

end CanonicalJSON

/-- Structural equality of JSON values, from the claim: equal scalars, equal
arrays pointwise, and objects equal up to key order (an intermediate list
`l` equals the first object pointwise and is a permutation of the second). -/
inductive StructEq : J → J → Prop where
  | null : StructEq .null .null
  | bool (b : Bool) : StructEq (.bool b) (.bool b)
  | num (n : Int) : StructEq (.num n) (.num n)
  | str (s : List Nat) : StructEq (.str s) (.str s)
  | arr {xs ys : JList} (hlen : xs.toList.length = ys.toList.length)
      (h : ∀ i (h1 : i < xs.toList.length) (h2 : i < ys.toList.length),
        StructEq (xs.toList.get ⟨i, h1⟩) (ys.toList.get ⟨i, h2⟩)) :
      StructEq (.arr xs) (.arr ys)
  | obj {kvs1 kvs2 : KVList} (l : List (List Nat × J))
      (hlen : kvs1.toList.length = l.length)
      (hkeys : ∀ i (h1 : i < kvs1.toList.length) (h2 : i < l.length),
        (kvs1.toList.get ⟨i, h1⟩).1 = (l.get ⟨i, h2⟩).1)
      (hvals : ∀ i (h1 : i < kvs1.toList.length) (h2 : i < l.length),
        StructEq (kvs1.toList.get ⟨i, h1⟩).2 (l.get ⟨i, h2⟩).2)
      (hperm : l.Perm kvs2.toList) :
      StructEq (.obj kvs1) (.obj kvs2)

/-- Wellformedness of parsed JSON: every object has pairwise-distinct keys
(guaranteed for values produced by a JSON parser, where objects are
dictionaries). -/
inductive WFKeys : J → Prop where
  | null : WFKeys .null
  | bool (b : Bool) : WFKeys (.bool b)
  | num (n : Int) : WFKeys (.num n)
  | str (s : List Nat) : WFKeys (.str s)
  | arr {xs : JList} (h : ∀ x ∈ xs.toList, WFKeys x) : WFKeys (.arr xs)
  | obj {kvs : KVList} (hnd : (kvs.toList.map Prod.fst).Nodup)
      (h : ∀ p ∈ kvs.toList, WFKeys p.2) : WFKeys (.obj kvs)

/-! ### KMS payload signer (Session.swift, `GridKMSSigner`)

External collaborators used by the signer are parameters: Foundation base64
decoding and JSON parsing of a payload string, CryptoKit SHA-256, ECDSA
P-256 signing with DER output, base64 encoding of the signature, and the
validity test of `P256.Signing.PrivateKey(rawRepresentation:)`. -/

structure KmsEnv where
  b64dec : List Nat → Option (List Nat)
  jparse : List Nat → Option J
  sha256 : List Nat → List Nat
  ecdsaSignDER : List Nat → List Nat → List Nat
  b64enc : List Nat → List Nat
  keyOk : List Nat → Bool

structure KMSPayloadSignature where
  provider : List Nat
  signatureBase64 : List Nat
deriving DecidableEq

inductive KmsError where
  | missingAuthorizationKey : KmsError
  | invalidKeyData : KmsError
deriving DecidableEq

/-- Payload-stub extraction of `signKMSpayloadsIfNeeded`: the top-level value
must be an object whose field named data (scalars 100,97,116,97) is an
object, otherwise the function returns no signatures; the stub list is its
field named kms_payloads when that is an array, and empty otherwise
(`as? [Any] ?? []`). -/
def GridKMSSigner.kmsPayloadStubs (prepareData : J) : List J :=
  match prepareData with
  | .obj top =>
      match top.lookup [100, 97, 116, 97] with
      | some (.obj dataObj) =>
          match dataObj.lookup [107, 109, 115, 95, 112, 97, 121, 108, 111, 97, 100, 115] with
          | some (.arr xs) => xs.toList
          | _ => []
      | _ => []
  | _ => []

/-- Canonical-bytes selection of the per-entry loop body: an object entry
with a string field named payload (scalars 112,97,121,108,111,97,100) whose
base64 decoding succeeds is signed as canonicalized JSON when the decoded
bytes parse as JSON and as the raw decoded bytes otherwise; a payload field
that is itself an object is canonicalized; in every other case the entire
entry is canonicalized. -/
def GridKMSSigner.canonicalBytesFor (env : KmsEnv) (entry : J) : List Nat :=
  match entry with
  | .obj kvs =>
      match kvs.lookup [112, 97, 121, 108, 111, 97, 100] with
      | some pf =>
          match pf with
          | .str s =>
              match env.b64dec s with
              | some payloadData =>
                  match env.jparse payloadData with
                  | some j => CanonicalJSON.canonicalString j
                  | none => payloadData
              | none => CanonicalJSON.canonicalString entry
          | .obj payloadObj => CanonicalJSON.canonicalString (.obj payloadObj)
          | _ => CanonicalJSON.canonicalString entry
      | none => CanonicalJSON.canonicalString entry
  | _ => CanonicalJSON.canonicalString entry

/-- One loop iteration of `signKMSpayloadsIfNeeded`: hash the canonical
bytes, sign the digest, base64 the DER signature, pair it with the fixed
provider tag privy (scalars 112,114,105,118,121). -/
def GridKMSSigner.signEntry (env : KmsEnv) (key : List Nat) (entry : J) : KMSPayloadSignature :=
  ⟨[112, 114, 105, 118, 121],
    env.b64enc (env.ecdsaSignDER key (env.sha256 (GridKMSSigner.canonicalBytesFor env entry)))⟩

/-- Model of `GridKMSSigner.signKMSpayloadsIfNeeded`.  An empty stub list
returns no signatures before the stored key is consulted; a missing or empty
stored key (after the refresh attempt, folded into `storedKey`) raises the
missing-authorization-key error; an invalid raw scalar raises the
key-construction error; otherwise each stub is signed in order. -/
def GridKMSSigner.signKMSpayloadsIfNeeded (env : KmsEnv) (storedKey : Option (List Nat))
    (prepareData : J) : Except KmsError (List KMSPayloadSignature) :=
  match GridKMSSigner.kmsPayloadStubs prepareData with
  | [] => .ok []
  | stubs =>
      match storedKey with
      | none => .error .missingAuthorizationKey
      | some k =>
          if k.isEmpty then .error .missingAuthorizationKey
          else if env.keyOk k then .ok (stubs.map (GridKMSSigner.signEntry env k))
          else .error .invalidKeyData

/-! ### Send-money orchestration (`sendMoney` and `GridTransfers`)

`GridTransfers.prepare` throws on every non-2xx HTTP status before decoding
the body; the thrown error propagates out of `sendMoney` through its
`catch`, so the later steps never run.  The model records the reached
outcome, the stage of the failing step and whether the KMS signer was
invoked. -/

inductive Stage where
  | building : Stage
  | prepare : Stage
  | sign : Stage
  | submit : Stage
deriving DecidableEq

inductive RunState where
  | confirmed : RunState
  | failed : RunState
deriving DecidableEq

structure RunOutcome where
  state : RunState
  failedStage : Option Stage
  signerInvoked : Bool
deriving DecidableEq

structure GridNetEnv where
  prepareStatus : Nat
  prepareData : J
  submitStatus : Nat

/-- HTTP success test `(200..<300).contains(statusCode)`. -/
def http2xx (status : Nat) : Bool := decide (200 ≤ status) && decide (status < 300)

/-- Model of the `sendMoney` orchestration from the prepare call onward
(transaction building has already succeeded when prepare is reached).  A
non-2xx prepare status throws inside `GridTransfers.prepare`, ending the run
as failed at the prepare stage without invoking the signer; otherwise the
signer runs over the prepare response, and then submit succeeds on a 2xx
status. -/
def sendMoneyRun (net : GridNetEnv) (env : KmsEnv) (storedKey : Option (List Nat)) : RunOutcome :=
  if http2xx net.prepareStatus then
    match GridKMSSigner.signKMSpayloadsIfNeeded env storedKey net.prepareData with
    | .error _ => ⟨.failed, some .sign, true⟩
    | .ok _ =>
        if http2xx net.submitStatus then ⟨.confirmed, none, true⟩
        else ⟨.failed, some .submit, true⟩
  else ⟨.failed, some .prepare, false⟩

/-! ### HPKE unwrap (HPKEManager)

The SwiftHPKE `suite.open` call is a parameter
`hpkeOpen : privateKey → encapsulated → ciphertext → Option plaintext`
(`none` models every throw of the library, including AEAD tag failure and
wrong-length inputs).  The SPKI DER parser `x963FromSPKIDER` is embedded
byte for byte; its slice `der[i..<end]` is a Swift `Range` construction that
traps (process crash, not a throw) when `i > end`, which the model keeps as
the distinguished result `.trap`. -/

inductive DerFail where
  | thrown : DerFail
  | trap : DerFail
deriving DecidableEq

namespace HPKEManager

/-- DER length parser `readLength`: one short-form byte, or a long-form
count of big-endian length bytes; the count must be positive and in range.
Returns the length and the index after it; `none` models the throw. -/
def readLength (data : List Nat) (idx : Nat) : Option (Nat × Nat) :=
  if idx < data.length then
    let first := data.getD idx 0
    if first &&& 128 = 0 then some (first, idx + 1)
    else
      let count := first &&& 127
      if 0 < count ∧ idx + 1 + count ≤ data.length then
        some (((data.drop (idx + 1)).take count).foldl (fun l b => l * 256 + b) 0,
          idx + 1 + count)
      else none
  else none

/-- Model of `x963FromSPKIDER`: outer SEQUENCE header, skipped
AlgorithmIdentifier, BIT STRING header, zero unused-bits byte, then the
content slice `der[i..<end]` with `end = i + (bitLen - 1)` computed in `Int`
as in Swift; a slice with `i > end` is the Swift `Range` trap.  The parsed
content must be a 65-byte uncompressed point starting with `0x04`. -/
def x963FromSPKIDER (der : List Nat) : Except DerFail (List Nat) :=
  if 0 < der.length ∧ der.getD 0 0 = 48 then
    match readLength der 1 with
    | none => .error .thrown
    | some (_, i1) =>
      if i1 < der.length ∧ der.getD i1 0 = 48 then
        match readLength der (i1 + 1) with
        | none => .error .thrown
        | some (algLen, i2) =>
          let i3 := i2 + algLen
          if i3 < der.length ∧ der.getD i3 0 = 3 then
            match readLength der (i3 + 1) with
            | none => .error .thrown
            | some (bitLen, i4) =>
              if i4 < der.length then
                if der.getD i4 0 = 0 then
                  let i5 := i4 + 1
                  let endI : Int := (i5 : Int) + ((bitLen : Int) - 1)
                  if endI ≤ (der.length : Int) then
                    if (i5 : Int) ≤ endI then
                      let x963 := (der.drop i5).take (endI - (i5 : Int)).toNat
                      if x963.head? = some 4 ∧ x963.length = 65 then .ok x963
                      else .error .thrown
                    else .error .trap
                  else .error .thrown
                else .error .thrown
              else .error .thrown
          else .error .thrown
      else .error .thrown
  else .error .thrown

end HPKEManager

/-- Outcomes of the HPKE unwrap: a full plaintext, a thrown (recoverable)
error, or a process trap. -/
inductive HpkeOutcome where
  | ok (plaintext : List Nat) : HpkeOutcome
  | thrown : HpkeOutcome
  | trap : HpkeOutcome
deriving DecidableEq

/-- Model of `HPKEManager.decryptAuthorizationKey` on already-base64-decoded
inputs: a missing stored private key throws; an encapsulated key that is a
65-byte `0x04`-prefixed point is used directly, otherwise it must parse as
SPKI DER (`try?` turns the parser throw into the decode throw, but a parser
trap crashes); the HPKE open of the parsed point either returns the full
plaintext or throws. -/
def HPKEManager.decryptAuthorizationKey
    (hpkeOpen : List Nat → List Nat → List Nat → Option (List Nat))
    (privRaw : Option (List Nat)) (encInput ct : List Nat) : HpkeOutcome :=
  match privRaw with
  | none => .thrown
  | some priv =>
      if encInput.head? = some 4 ∧ encInput.length = 65 then
        match hpkeOpen priv encInput ct with
        | some pt => .ok pt
        | none => .thrown
      else
        match HPKEManager.x963FromSPKIDER encInput with
        | .ok parsed =>
            match hpkeOpen priv parsed ct with
            | some pt => .ok pt
            | none => .thrown
        | .error .thrown => .thrown
        | .error .trap => .trap

/-! ### Concrete inputs used by the claim theorems and witnesses -/

/-- Transaction whose single instruction names a program absent from the
account table. -/
def txMissingProgram : SolanaLegacyTransaction :=
  ⟨[List.replicate 32 1], List.replicate 32 2,
    [⟨List.replicate 32 3, [0], [2, 0, 0, 0]⟩], 1, 0, 0⟩

/-- Digest stand-in whose outputs always fail the off-curve check (bit 7 of
the last byte set), exhausting the bump search. -/
def onCurveDigest : List Nat → List Nat := fun _ => List.replicate 32 128

/-- Concrete external-collaborator instantiation used by witnesses. -/
def trivialKmsEnv : KmsEnv :=
  ⟨fun _ => none, fun _ => none, id, fun _ d => d, id, fun _ => true⟩

/-- DER-like byte string with a shallow 32-byte octet string first and a
deeper one (preceded by a 0x30 byte) afterwards. -/
def sampleDERPlaintext : List Nat :=
  [4, 32] ++ List.replicate 32 7 ++ [48, 4, 32] ++ List.replicate 32 9

/-- The object written with key b (scalar 98) before key a (scalar 97). -/
def exObjBA : J := .obj (.cons [98] (.num 2) (.cons [97] (.num 1) .nil))

/-- The same object written with key a before key b. -/
def exObjAB : J := .obj (.cons [97] (.num 1) (.cons [98] (.num 2) .nil))

/-! ## Theorems -/

/-- Helper: the shortvec encoder always emits at least one byte. -/
theorem encodeShortVec_ne_nil (n : Nat) : encodeShortVec n ≠ [] := by
  unfold encodeShortVec
  split <;> simp

/-- Helper: the encoder output is a wellformed continuation-bit chain whose
7-bit value is the encoded number. -/
theorem encodeShortVec_sound (n : Nat) :
    shortVecChainOk (encodeShortVec n) = true ∧ shortVecVal (encodeShortVec n) = n := by
  induction n using Nat.strong_induction_on with
  | _ n ih =>
    unfold encodeShortVec
    split
    case isTrue h =>
      refine ⟨by simp [shortVecChainOk]; omega, by simp [shortVecVal]; omega⟩
    case isFalse h =>
      have hlt : n / 128 < n := Nat.div_lt_self (by omega) (by norm_num)
      obtain ⟨ih1, ih2⟩ := ih (n / 128) hlt
      cases henc : encodeShortVec (n / 128) with
      | nil => exact absurd henc (encodeShortVec_ne_nil _)
      | cons b rest =>
        rw [henc] at ih1 ih2
        constructor
        · simp only [shortVecChainOk, Bool.and_eq_true, decide_eq_true_eq]
          exact ⟨⟨by omega, by omega⟩, ih1⟩
        · simp only [shortVecVal] at ih2 ⊢
          omega

/-- Helper: every wellformed chain encoding a value is at least as long as
the encoder output for that value. -/
theorem encodeShortVec_minimal (bs : List Nat) (hok : shortVecChainOk bs = true)
    (n : Nat) (hval : shortVecVal bs = n) : (encodeShortVec n).length ≤ bs.length := by
  induction bs generalizing n with
  | nil => simp [shortVecChainOk] at hok
  | cons b rest ih =>
    cases rest with
    | nil =>
      simp only [shortVecChainOk, decide_eq_true_eq] at hok
      simp only [shortVecVal] at hval
      unfold encodeShortVec
      have : n / 128 = 0 := by omega
      simp [this]
    | cons b2 rest2 =>
      simp only [shortVecChainOk, Bool.and_eq_true, decide_eq_true_eq] at hok
      obtain ⟨⟨hb1, hb2⟩, hokRest⟩ := hok
      simp only [shortVecVal] at hval
      unfold encodeShortVec
      split
      case isTrue h => simp
      case isFalse h =>
        have := ih hokRest (n / 128) (by simp only [shortVecVal]; omega)
        simpa using Nat.succ_le_succ this

/-- Claim C9: the shortvec encoder emits the minimal-length encoding of every
natural number as 7-bit groups, least-significant group first, with the
continuation bit set on every byte except the last; in particular
encode 0 = 00, encode 127 = 7F, encode 128 = 80 01, encode 300 = AC 02. -/
theorem shortvec_encode_minimal :
    (∀ n : Nat,
      shortVecChainOk (encodeShortVec n) = true ∧
      shortVecVal (encodeShortVec n) = n ∧
      ∀ bs : List Nat, shortVecChainOk bs = true → shortVecVal bs = n →
        (encodeShortVec n).length ≤ bs.length) ∧
    encodeShortVec 0 = [0] ∧ encodeShortVec 127 = [127] ∧
    encodeShortVec 128 = [128, 1] ∧ encodeShortVec 300 = [172, 2] := by
  refine ⟨fun n => ⟨(encodeShortVec_sound n).1, (encodeShortVec_sound n).2,
    fun bs hok hval => encodeShortVec_minimal bs hok n hval⟩,
    by simp [encodeShortVec], by simp [encodeShortVec],
    by simp [encodeShortVec], by simp [encodeShortVec]⟩

/-- Witness for C9 at n = 300 and the two-byte chain AC 02. -/
theorem shortvec_encode_minimal_witness :
    shortVecChainOk [172, 2] = true ∧ shortVecVal [172, 2] = 300 ∧
      (encodeShortVec 300).length ≤ ([172, 2] : List Nat).length :=
  ⟨by decide, by decide,
    (shortvec_encode_minimal.1 300).2.2 [172, 2] (by decide) (by decide)⟩

/-- Claim C4 (code bug): the Base58 round-trip drops leading zero bytes when
the input also has nonzero bytes.  The conversion loop of `encode` seeds the
little-endian digit array with the zero-valued digit `'1'` once per leading
zero byte and then overwrites those positions, so encode [0,0,1] is the
two-character string 12 (scalars 49,50) instead of 112, and decoding it
returns [0,1].  The all-zero and empty vectors of the claim do hold. -/
theorem base58_roundtrip_drops_leading_zeros :
    Base58.encode [0, 0, 1] = [49, 50] ∧
    Base58.decode (Base58.encode [0, 0, 1]) = some [0, 1] ∧
    Base58.encode [0, 0, 0] = [49, 49, 49] ∧
    Base58.decode (Base58.encode []) = some [] :=
  ⟨by decide, by decide, by decide, by decide⟩

/-- Claim C1 (code bug): `serializeUnsigned` does not fail when an
instruction references a program Address absent from the account table; the
failed index lookup hits `continue`, the instruction serializes to nothing,
and the output still declares one instruction (the final shortvec count byte
1) followed by no instruction bytes — a silently corrupt message instead of
a `ProgramNotInAccountTable` error. -/
theorem serializeUnsigned_silently_skips_instruction :
    SolanaLegacyTransaction.serializeInstruction txMissingProgram.accountKeys
      ⟨List.replicate 32 3, [0], [2, 0, 0, 0]⟩ = [] ∧
    SolanaLegacyTransaction.serializeUnsigned txMissingProgram =
      [1] ++ List.replicate 64 0 ++ [1, 0, 0, 1] ++ List.replicate 32 1
        ++ List.replicate 32 2 ++ [1] := by
  constructor
  · decide
  · simp [SolanaLegacyTransaction.serializeUnsigned,
      SolanaLegacyTransaction.serializeInstruction, txMissingProgram, encodeShortVec]

set_option maxRecDepth 8000 in
/-- Claim C6 counterexample: when every bump yields an on-curve digest the
derivation does not return any `DerivationExhausted` error value — its
result type is the plain pair type and the value returned is the in-band
sentinel (empty address, bump 0), whose first component is not even a
32-byte address. -/
theorem deriveATA_exhaustion_no_error_value :
    TokenProgramBuilder.deriveAssociatedTokenAddress onCurveDigest [] [] = ([], 0) ∧
    (TokenProgramBuilder.deriveAssociatedTokenAddress onCurveDigest [] []).1.length ≠ 32 := by
  decide

/-- Helper: the bump-search loop started at bump k returns the sentinel when
every bump in [1, k] is rejected. -/
theorem deriveATAGo_exhausted (h : List Nat → List Nat) (w m : List Nat) :
    ∀ k : Nat,
      (∀ b, 1 ≤ b → b ≤ k →
        TokenProgramBuilder.isOffCurveEd25519 (h (TokenProgramBuilder.ataSeedBytes w m b)) = false) →
      TokenProgramBuilder.deriveATAGo h w m k = ([], 0) := by
  intro k
  induction k with
  | zero => intro _; rfl
  | succ n ih =>
    intro hall
    simp only [TokenProgramBuilder.deriveATAGo]
    rw [hall (n + 1) (by omega) (le_refl _)]
    simp only [Bool.false_eq_true, if_false]
    exact ih (fun b h1 h2 => hall b h1 (by omega))

/-- Claim C6 (amended): for every digest function and every wallet and mint
for which no bump in [1, 255] yields an off-curve digest, the derivation
returns the in-band sentinel pair (empty address, bump 0) — a representable,
distinguishable value, though not a distinct `DerivationExhausted` error —
and does not crash. -/
theorem deriveATA_exhaustion_sentinel (h : List Nat → List Nat) (w m : List Nat)
    (hall : ∀ b, 1 ≤ b → b ≤ 255 →
      TokenProgramBuilder.isOffCurveEd25519 (h (TokenProgramBuilder.ataSeedBytes w m b)) = false) :
    TokenProgramBuilder.deriveAssociatedTokenAddress h w m = ([], 0) :=
  deriveATAGo_exhausted h w m 255 hall

/-- Witness for C6 with the always-on-curve digest. -/
theorem deriveATA_exhaustion_sentinel_witness :
    TokenProgramBuilder.deriveAssociatedTokenAddress onCurveDigest [1] [2] = ([], 0) :=
  deriveATA_exhaustion_sentinel onCurveDigest [1] [2] (fun b _ _ => by simp only [onCurveDigest]; decide)

/-- Claim C2 (code bug): a malformed SPKI encapsulated key whose BIT STRING
header declares length 0 drives `end = i + (bitLen - 1)` below `i`, and the
slice `der[i..<end]` is a Swift `Range` precondition failure — a process
trap, not the `DecryptionFailed` throw the claim requires.  The 7-byte input
30 00 30 00 03 00 00 reaches the trap for every stored private key, every
ciphertext and every behaviour of the HPKE library. -/
theorem hpke_malformed_spki_traps
    (hpkeOpen : List Nat → List Nat → List Nat → Option (List Nat)) (priv ct : List Nat) :
    HPKEManager.decryptAuthorizationKey hpkeOpen (some priv) [48, 0, 48, 0, 3, 0, 0] ct =
      .trap := by
  have hx : HPKEManager.x963FromSPKIDER [48, 0, 48, 0, 3, 0, 0] = .error .trap := rfl
  simp [HPKEManager.decryptAuthorizationKey, hx]

/-- Claim C8: a non-2xx prepare status ends the run failed at the prepare
stage with the KMS signer never invoked. -/
theorem prepare_failure_skips_signer (net : GridNetEnv) (env : KmsEnv)
    (storedKey : Option (List Nat)) (h : http2xx net.prepareStatus = false) :
    sendMoneyRun net env storedKey = ⟨.failed, some .prepare, false⟩ := by
  simp [sendMoneyRun, h]

/-- Witness for C8 at HTTP status 500. -/
theorem prepare_failure_skips_signer_witness :
    sendMoneyRun ⟨500, .null, 200⟩ trivialKmsEnv none = ⟨.failed, some .prepare, false⟩ :=
  prepare_failure_skips_signer ⟨500, .null, 200⟩ trivialKmsEnv none (by decide)

/-- Claim C10: an absent or empty kms_payloads stub list makes the signer
return an empty signature list without consulting the stored authorization
key — the result is ok even when no key is stored at all. -/
theorem empty_kms_payloads_signs_nothing (env : KmsEnv) (storedKey : Option (List Nat))
    (p : J) (h : GridKMSSigner.kmsPayloadStubs p = []) :
    GridKMSSigner.signKMSpayloadsIfNeeded env storedKey p = .ok [] := by
  unfold GridKMSSigner.signKMSpayloadsIfNeeded
  rw [h]

/-- Witness for C10: a prepare response whose data object has no
kms_payloads field, with no stored key. -/
theorem empty_kms_payloads_signs_nothing_witness :
    GridKMSSigner.signKMSpayloadsIfNeeded trivialKmsEnv none
      (.obj (.cons [100, 97, 116, 97] (.obj .nil) .nil)) = .ok [] :=
  empty_kms_payloads_signs_nothing trivialKmsEnv none
    (.obj (.cons [100, 97, 116, 97] (.obj .nil) .nil)) rfl

/-- Claim C3: when the signer returns a signature list, it has exactly one
signature per payload stub and the i-th signature is produced from the i-th
stub. -/
theorem kms_signatures_in_order (env : KmsEnv) (k : List Nat) (p : J)
    (out : List KMSPayloadSignature)
    (h : GridKMSSigner.signKMSpayloadsIfNeeded env (some k) p = .ok out) :
    out.length = (GridKMSSigner.kmsPayloadStubs p).length ∧
    ∀ i (h1 : i < out.length) (h2 : i < (GridKMSSigner.kmsPayloadStubs p).length),
      out.get ⟨i, h1⟩ =
        GridKMSSigner.signEntry env k ((GridKMSSigner.kmsPayloadStubs p).get ⟨i, h2⟩) := by
  unfold GridKMSSigner.signKMSpayloadsIfNeeded at h
  cases hstubs : GridKMSSigner.kmsPayloadStubs p with
  | nil =>
    rw [hstubs] at h
    simp only [Except.ok.injEq] at h
    subst h
    exact ⟨rfl, fun i h1 h2 => absurd h1 (by simp)⟩
  | cons a rest =>
    rw [hstubs] at h
    by_cases hk : k.isEmpty
    · simp [hk] at h
    · by_cases hko : env.keyOk k
      · simp only [hk, hko, if_false, if_true, Bool.false_eq_true, Except.ok.injEq] at h
        subst h
        refine ⟨by simp, fun i h1 h2 => ?_⟩
        simp only [List.get_eq_getElem, ← List.map_cons, List.getElem_map]
      · simp [hk, hko] at h

/-- Witness for C3: a prepare response with two stubs, signed in order. -/
theorem kms_signatures_in_order_witness :
    ([⟨[112, 114, 105, 118, 121], [49]⟩,
      ⟨[112, 114, 105, 118, 121], [50]⟩] : List KMSPayloadSignature).length =
      (GridKMSSigner.kmsPayloadStubs
        (.obj (.cons [100, 97, 116, 97]
          (.obj (.cons [107, 109, 115, 95, 112, 97, 121, 108, 111, 97, 100, 115]
            (.arr (.cons (.num 1) (.cons (.num 2) .nil))) .nil)) .nil))).length ∧
    ∀ i (h1 : i < ([⟨[112, 114, 105, 118, 121], [49]⟩,
        ⟨[112, 114, 105, 118, 121], [50]⟩] : List KMSPayloadSignature).length)
      (h2 : i < (GridKMSSigner.kmsPayloadStubs
        (.obj (.cons [100, 97, 116, 97]
          (.obj (.cons [107, 109, 115, 95, 112, 97, 121, 108, 111, 97, 100, 115]
            (.arr (.cons (.num 1) (.cons (.num 2) .nil))) .nil)) .nil))).length),
      ([⟨[112, 114, 105, 118, 121], [49]⟩,
        ⟨[112, 114, 105, 118, 121], [50]⟩] : List KMSPayloadSignature).get ⟨i, h1⟩ =
        GridKMSSigner.signEntry trivialKmsEnv [1]
          ((GridKMSSigner.kmsPayloadStubs
            (.obj (.cons [100, 97, 116, 97]
              (.obj (.cons [107, 109, 115, 95, 112, 97, 121, 108, 111, 97, 100, 115]
                (.arr (.cons (.num 1) (.cons (.num 2) .nil))) .nil)) .nil))).get ⟨i, h2⟩) :=
  kms_signatures_in_order trivialKmsEnv [1]
    (.obj (.cons [100, 97, 116, 97]
      (.obj (.cons [107, 109, 115, 95, 112, 97, 121, 108, 111, 97, 100, 115]
        (.arr (.cons (.num 1) (.cons (.num 2) .nil))) .nil)) .nil))
    [⟨[112, 114, 105, 118, 121], [49]⟩, ⟨[112, 114, 105, 118, 121], [50]⟩] rfl

/-- Helper: no bytes precede position 0. -/
theorem markerDepth_zero (l : List Nat) : markerDepth l 0 = 0 := by
  simp [markerDepth]

/-- Helper: one-step unfolding of the nesting depth. -/
theorem markerDepth_cons_succ (b0 : Nat) (tl : List Nat) (j : Nat) :
    markerDepth (b0 :: tl) (j + 1) = (if b0 = 48 then 1 else 0) + markerDepth tl j := by
  simp only [markerDepth, List.take_succ_cons, List.filter_cons]
  by_cases h : b0 = 48
  · simp [h]; omega
  · simp [h]

/-- Helper: the candidate scan collects exactly the marker positions,
each paired with its nesting depth (offset by the starting counters). -/
theorem scanCandidates_eq : ∀ (l : List Nat) (i d : Nat),
    SessionManager.scanCandidates l i d =
      (markerPositions l).map (fun j => (i + j, d + markerDepth l j))
  | [], _, _ => rfl
  | [_], _, _ => rfl
  | b0 :: b1 :: rest, i, d => by
    have ih := scanCandidates_eq (b1 :: rest)
    rw [SessionManager.scanCandidates, markerPositions]
    by_cases h48 : b0 = 48
    · have hm : ¬(b0 = 4 ∧ b1 = 32) := by omega
      rw [if_pos h48, if_neg hm, ih, List.map_map]
      refine List.map_congr_left fun j hj => ?_
      simp only [Function.comp_apply, markerDepth_cons_succ, if_pos h48, Prod.mk.injEq]
      omega
    · rw [if_neg h48]
      by_cases hm : b0 = 4 ∧ b1 = 32
      · rw [if_pos hm, if_pos hm, ih, List.map_cons, List.map_map]
        refine congrArg₂ List.cons ?_ ?_
        · simp [markerDepth_zero]
        · refine List.map_congr_left fun j hj => ?_
          simp only [Function.comp_apply, markerDepth_cons_succ, if_neg h48, Prod.mk.injEq]
          omega
      · rw [if_neg hm, if_neg hm, ih, List.map_map]
        refine List.map_congr_left fun j hj => ?_
        simp only [Function.comp_apply, markerDepth_cons_succ, if_neg h48, Prod.mk.injEq]
        omega

/-- Helper: the running-maximum fold returns the accumulator or a list
element, and its depth dominates the accumulator and every element. -/
theorem foldBest_spec (cs : List (Nat × Nat)) : ∀ acc : Nat × Nat,
    (cs.foldl (fun best x => if best.2 < x.2 then x else best) acc = acc ∨
      cs.foldl (fun best x => if best.2 < x.2 then x else best) acc ∈ cs) ∧
    acc.2 ≤ (cs.foldl (fun best x => if best.2 < x.2 then x else best) acc).2 ∧
    ∀ x ∈ cs, x.2 ≤ (cs.foldl (fun best x => if best.2 < x.2 then x else best) acc).2 := by
  induction cs with
  | nil => intro acc; exact ⟨Or.inl rfl, le_refl _, by simp⟩
  | cons c rest ih =>
    intro acc
    simp only [List.foldl_cons]
    obtain ⟨hmem, hle, hall⟩ := ih (if acc.2 < c.2 then c else acc)
    have hacc : acc.2 ≤ (if acc.2 < c.2 then c else acc).2 := by
      split <;> omega
    have hc : c.2 ≤ (if acc.2 < c.2 then c else acc).2 := by
      split <;> omega
    refine ⟨?_, le_trans hacc hle, ?_⟩
    · rcases hmem with h | h
      · rw [h]
        split
        · exact Or.inr (List.mem_cons_self _ _)
        · exact Or.inl rfl
      · exact Or.inr (List.mem_cons_of_mem _ h)
    · intro x hx
      rcases List.mem_cons.mp hx with h | h
      · exact le_trans (h ▸ hc) hle
      · exact hall x h

/-- Helper: a successful `pickBest` returns a list element of maximal
depth. -/
theorem pickBest_spec (cs : List (Nat × Nat)) (c : Nat × Nat)
    (h : SessionManager.pickBest cs = some c) : c ∈ cs ∧ ∀ x ∈ cs, x.2 ≤ c.2 := by
  cases cs with
  | nil => simp [SessionManager.pickBest] at h
  | cons a rest =>
    simp only [SessionManager.pickBest, Option.some.injEq] at h
    obtain ⟨hmem, hle, hall⟩ := foldBest_spec rest a
    rw [h] at hmem hle hall
    refine ⟨?_, ?_⟩
    · rcases hmem with h2 | h2
      · rw [h2]; exact List.mem_cons_self _ _
      · exact List.mem_cons_of_mem _ h2
    · intro x hx
      rcases List.mem_cons.mp hx with h2 | h2
      · exact h2 ▸ hle
      · exact hall x h2

/-- Claim C7: whenever the candidate data contains at least one 32-byte
OCTET STRING marker (byte pair 04 20), the extraction returns the 32 bytes
following a marker of maximal nesting depth when they fit within the data
and nothing when the chosen marker does not fit; with no marker at all it
returns nothing. -/
theorem extractRawP256_innermost (bytes : List Nat) :
    (markerPositions bytes = [] → SessionManager.extractRawP256PrivateKey bytes = none) ∧
    (markerPositions bytes ≠ [] →
      ∃ p ∈ markerPositions bytes,
        (∀ q ∈ markerPositions bytes, markerDepth bytes q ≤ markerDepth bytes p) ∧
        SessionManager.extractRawP256PrivateKey bytes =
          if p + 2 + 32 ≤ bytes.length then some ((bytes.drop (p + 2)).take 32) else none) := by
  have hscan : SessionManager.scanCandidates bytes 0 0 =
      (markerPositions bytes).map (fun j => (j, markerDepth bytes j)) := by
    rw [scanCandidates_eq]
    simp
  constructor
  · intro h
    unfold SessionManager.extractRawP256PrivateKey
    rw [hscan, h]
    rfl
  · intro h
    unfold SessionManager.extractRawP256PrivateKey
    rw [hscan]
    cases hms : markerPositions bytes with
    | nil => exact absurd hms h
    | cons m ms =>
      rw [List.map_cons]
      obtain ⟨c, hc⟩ : ∃ c, SessionManager.pickBest
          ((m, markerDepth bytes m) :: ms.map (fun j => (j, markerDepth bytes j))) = some c :=
        ⟨_, rfl⟩
      rw [hc]
      have hspec := pickBest_spec _ _ hc
      have hlst : (m, markerDepth bytes m) :: ms.map (fun j => (j, markerDepth bytes j)) =
          (m :: ms).map (fun j => (j, markerDepth bytes j)) := rfl
      rw [hlst] at hspec
      obtain ⟨hcmem, hcmax⟩ := hspec
      obtain ⟨p, hp, hfp⟩ := List.mem_map.mp hcmem
      refine ⟨p, hp, ?_, ?_⟩
      · intro q hq
        have := hcmax _ (List.mem_map_of_mem (fun j => (j, markerDepth bytes j)) hq)
        rw [← hfp] at this
        exact this
      · rw [← hfp]

/-- Witness for C7 on a plaintext with a shallow and a deeper marker. -/
theorem extractRawP256_innermost_witness :
    ∃ p ∈ markerPositions sampleDERPlaintext,
      (∀ q ∈ markerPositions sampleDERPlaintext,
        markerDepth sampleDERPlaintext q ≤ markerDepth sampleDERPlaintext p) ∧
      SessionManager.extractRawP256PrivateKey sampleDERPlaintext =
        if p + 2 + 32 ≤ sampleDERPlaintext.length
        then some ((sampleDERPlaintext.drop (p + 2)).take 32) else none :=
  (extractRawP256_innermost sampleDERPlaintext).2 (by decide)

/-- Helper: array rendering is the elementwise canonical rendering. -/
theorem canonicalList_eq_map : ∀ xs : JList,
    CanonicalJSON.canonicalList xs = xs.toList.map CanonicalJSON.canonicalString
  | .nil => rfl
  | .cons x tl => by
      simp [CanonicalJSON.canonicalList, JList.toList, canonicalList_eq_map tl]

/-- Helper: object-entry rendering keeps keys and canonicalizes values. -/
theorem canonicalKVs_eq_map : ∀ kvs : KVList,
    CanonicalJSON.canonicalKVs kvs =
      kvs.toList.map (fun p => (p.1, CanonicalJSON.canonicalString p.2))
  | .nil => rfl
  | .cons k v tl => by
      simp [CanonicalJSON.canonicalKVs, KVList.toList, canonicalKVs_eq_map tl]

/-- Helper: with pairwise-distinct keys, the key-sorted form of a list of
rendered entries depends only on the multiset of entries, not their order. -/
theorem insertionSort_eq_of_perm_of_nodup_keys {l1 l2 : List (List Nat × List Nat)}
    (hp : l1.Perm l2) (hnd : (l1.map Prod.fst).Nodup) :
    l1.insertionSort CanonicalJSON.keyLeP = l2.insertionSort CanonicalJSON.keyLeP := by
  have hs1 := List.sorted_insertionSort CanonicalJSON.keyLeP l1
  have hs2 := List.sorted_insertionSort CanonicalJSON.keyLeP l2
  have hp1 : (l1.insertionSort CanonicalJSON.keyLeP).Perm l1 :=
    List.perm_insertionSort CanonicalJSON.keyLeP l1
  have hp2 : (l2.insertionSort CanonicalJSON.keyLeP).Perm l2 :=
    List.perm_insertionSort CanonicalJSON.keyLeP l2
  have hperm : (l1.insertionSort CanonicalJSON.keyLeP).Perm
      (l2.insertionSort CanonicalJSON.keyLeP) := (hp1.trans hp).trans hp2.symm
  have hnd1 : ((l1.insertionSort CanonicalJSON.keyLeP).map Prod.fst).Nodup :=
    hnd.perm (hp1.map Prod.fst).symm
  have hnd2 : ((l2.insertionSort CanonicalJSON.keyLeP).map Prod.fst).Nodup :=
    hnd1.perm (hperm.map Prod.fst)
  have strict : ∀ (s : List (List Nat × List Nat)), List.Sorted CanonicalJSON.keyLeP s →
      (s.map Prod.fst).Nodup → List.Sorted CanonicalJSON.keyLtP s := by
    intro s hs hn
    have hne : s.Pairwise (fun a b => a.1 ≠ b.1) := List.pairwise_map.mp hn
    exact (hs.and hne).imp (fun h => lt_of_le_of_ne h.1 h.2)
  exact List.eq_of_perm_of_sorted hperm (strict _ hs1 hnd1) (strict _ hs2 hnd2)

/-- Helper: structurally equal wellformed JSON values canonicalize to the
same scalar sequence, by induction on the structural-equality derivation. -/
theorem canonicalString_respects_structEq {a b : J} (h : StructEq a b) (hwf : WFKeys a) :
    CanonicalJSON.canonicalString a = CanonicalJSON.canonicalString b := by
  induction h with
  | null => rfl
  | bool b => rfl
  | num n => rfl
  | str s => rfl
  | @arr xs ys hlen hpt ih =>
    have hw : ∀ x ∈ xs.toList, WFKeys x := by
      cases hwf with | arr hw => exact hw
    have hmap : xs.toList.map CanonicalJSON.canonicalString =
        ys.toList.map CanonicalJSON.canonicalString := by
      apply List.ext_get (by simpa using hlen)
      intro i h1 h2
      simp only [List.get_eq_getElem, List.getElem_map]
      have := ih i (by simpa using h1) (by simpa using h2) (hw _ (List.get_mem _ _ _))
      simpa [List.get_eq_getElem] using this
    simp [CanonicalJSON.canonicalString, canonicalList_eq_map, hmap]
  | @obj kvs1 kvs2 l hlen hkeys hvals hperm ih =>
    have hnd : (kvs1.toList.map Prod.fst).Nodup := by
      cases hwf with | obj hnd hw => exact hnd
    have hw : ∀ p ∈ kvs1.toList, WFKeys p.2 := by
      cases hwf with | obj hnd hw => exact hw
    have hmap : kvs1.toList.map (fun p => (p.1, CanonicalJSON.canonicalString p.2)) =
        l.map (fun p => (p.1, CanonicalJSON.canonicalString p.2)) := by
      apply List.ext_get (by simpa using hlen)
      intro i h1 h2
      simp only [List.get_eq_getElem, List.getElem_map]
      have hk := hkeys i (by simpa using h1) (by simpa using h2)
      have hv := ih i (by simpa using h1) (by simpa using h2) (hw _ (List.get_mem _ _ _))
      rw [Prod.ext_iff]
      exact ⟨by simpa [List.get_eq_getElem] using hk, by simpa [List.get_eq_getElem] using hv⟩
    have hperm2 : (kvs1.toList.map (fun p => (p.1, CanonicalJSON.canonicalString p.2))).Perm
        (kvs2.toList.map (fun p => (p.1, CanonicalJSON.canonicalString p.2))) := by
      rw [hmap]; exact hperm.map _
    have hndg : ((kvs1.toList.map (fun p => (p.1, CanonicalJSON.canonicalString p.2))).map
        Prod.fst).Nodup := by
      have heq : (kvs1.toList.map (fun p => (p.1, CanonicalJSON.canonicalString p.2))).map
          Prod.fst = kvs1.toList.map Prod.fst := by
        rw [List.map_map]; rfl
      rw [heq]; exact hnd
    simp only [CanonicalJSON.canonicalString, canonicalKVs_eq_map]
    rw [insertionSort_eq_of_perm_of_nodup_keys hperm2 hndg]

/-- Claim C5: structurally-equal JSON values (objects up to key order)
canonicalize to identical output, with object keys in lexicographic scalar
order; in particular both key orders of the two-field example render as the
scalars of the canonical text with key a before key b. -/
theorem canonicalJSON_structural_determinism :
    (∀ a b : J, StructEq a b → WFKeys a →
      CanonicalJSON.canonicalString a = CanonicalJSON.canonicalString b) ∧
    CanonicalJSON.canonicalString exObjBA =
      [123, 34, 97, 34, 58, 49, 44, 34, 98, 34, 58, 50, 125] ∧
    CanonicalJSON.canonicalString exObjAB =
      [123, 34, 97, 34, 58, 49, 44, 34, 98, 34, 58, 50, 125] :=
  ⟨fun _ _ h hwf => canonicalString_respects_structEq h hwf, by decide, by decide⟩

/-- Witness for C5 on the two orderings of the example object. -/
theorem canonicalJSON_structural_determinism_witness :
    CanonicalJSON.canonicalString exObjBA = CanonicalJSON.canonicalString exObjAB :=
  canonicalJSON_structural_determinism.1 exObjBA exObjAB
    (StructEq.obj [([98], J.num 2), ([97], J.num 1)] rfl
      (fun _ _ _ => rfl)
      (fun i h1 h2 => by
        have h1' : i < 2 := by simpa [KVList.toList] using h1
        interval_cases i
        · exact StructEq.num 2
        · exact StructEq.num 1)
      (List.Perm.swap ([97], J.num 1) ([98], J.num 2) []))
    (WFKeys.obj (by decide)
      (by
        intro p hp
        simp only [KVList.toList, List.mem_cons, List.not_mem_nil, or_false] at hp
        rcases hp with h | h <;> subst h <;> exact WFKeys.num _))
